import Mathlib

/-!
# LibreNote: find session, status line and file persistence

A shallow embedding of `src/main.cpp` (a GTK 4 plain-text editor).

* The text buffer is its character sequence together with the two marks GTK
  keeps for the cursor and the selection (`insert`, `selection_bound`).
  A `GtkTextIter` is a character offset into that sequence.
* `find_next`, `update_status`, `open_finish`, `save_to_file` and
  `save_as_finish` are transcribed statement by statement from the source.
* GTK, GLib and GIO are libraries outside the repository.  The few library
  calls the program makes are modelled by their documented contracts; each
  such definition says so in its doc comment.
-/

namespace LibreNote

/-! ## Text buffer -/

/-- The text buffer of the editor's text view: the document text and the two
marks that delimit the selection.  Offsets count characters from 0. -/
structure GtkTextBuffer where
  text : List Char
  insert : Nat
  selection_bound : Nat
  deriving DecidableEq, Repr

/-- Offset of the iterator returned by `gtk_text_buffer_get_start_iter`. -/
def gtk_text_buffer_get_start_iter (_buf : GtkTextBuffer) : Nat := 0

/-- Offset of the iterator returned by `gtk_text_buffer_get_end_iter`. -/
def gtk_text_buffer_get_end_iter (buf : GtkTextBuffer) : Nat := buf.text.length

/-- The call `gtk_text_buffer_select_range (buf, ins, bound)`: the `insert` mark
goes to `ins`, the `selection_bound` mark to `bound`; the text is untouched. -/
def gtk_text_buffer_select_range (buf : GtkTextBuffer) (ins bound : Nat) : GtkTextBuffer :=
  { buf with insert := ins, selection_bound := bound }

/-- Lower end of the selection (the smaller of the two marks). -/
def selection_start (buf : GtkTextBuffer) : Nat := min buf.insert buf.selection_bound

/-- Upper end of the selection (the larger of the two marks). -/
def selection_end (buf : GtkTextBuffer) : Nat := max buf.insert buf.selection_bound

/-! ## Literal substring search (GTK) -/

/-- First offset, counting from `pos` at the head of the given suffix, at which
`str` is a literal prefix of what remains. -/
def first_occurrence (str : List Char) : List Char → Nat → Option Nat
  | [], pos => if str.isPrefixOf [] then some pos else none
  | c :: cs, pos =>
    if str.isPrefixOf (c :: cs) then some pos else first_occurrence str cs (pos + 1)

/-- Largest offset below `n` at which `str` occurs literally in `text`. -/
def last_occurrence (str text : List Char) : Nat → Option Nat
  | 0 => none
  | n + 1 => if str.isPrefixOf (text.drop n) then some n else last_occurrence str text n

/-- Modelled from the spec: `gtk_text_iter_forward_search` with
`GTK_TEXT_SEARCH_TEXT_ONLY` and no limit is a GTK library function, absent from
the repository.  Following its documented contract and the spec (a
case-sensitive, literal search of the region after the iterator), it returns
the bounds of the first occurrence of `str` that starts at or after `iter`. -/
def gtk_text_iter_forward_search (text : List Char) (iter : Nat) (str : List Char) :
    Option (Nat × Nat) :=
  (first_occurrence str (text.drop iter) iter).map fun s => (s, s + str.length)

/-- Modelled from the spec: `gtk_text_iter_backward_search` with
`GTK_TEXT_SEARCH_TEXT_ONLY` and no limit is a GTK library function, absent from
the repository.  Following its documented contract and the spec (a
case-sensitive, literal search of the region before the iterator), it returns
the bounds of the last occurrence of `str` that ends at or before `iter`. -/
def gtk_text_iter_backward_search (text : List Char) (iter : Nat) (str : List Char) :
    Option (Nat × Nat) :=
  if str.length ≤ iter then
    (last_occurrence str text (iter - str.length + 1)).map fun s => (s, s + str.length)
  else none

/-! ## Find session -/

/-- The find panel's state (`struct FindData`): the resume point and whether it
has been set.  The widget pointers carry no state of their own; the entry's
text is passed to `find_next` as `txt`. -/
structure FindData where
  last_iter : Nat
  initialized : Bool
  deriving DecidableEq, Repr

/-- The function `find_next (fdata, forward)` of the source.  `txt` is what
`gtk_editable_get_text` returns for the entry (`none` for a null pointer).
Scrolling the view to the match changes no buffer or session state. -/
def find_next (buf : GtkTextBuffer) (fdata : FindData) (txt : Option (List Char))
    (forward : Bool) : GtkTextBuffer × FindData :=
  let start := fdata.last_iter
  match txt with
  | none => (buf, fdata)
  | some txt =>
    if txt = [] then (buf, fdata)
    else
      let start := if !fdata.initialized then gtk_text_buffer_get_start_iter buf else start
      let fdata : FindData := if !fdata.initialized then { fdata with initialized := true } else fdata
      let found :=
        if forward then gtk_text_iter_forward_search buf.text start txt
        else gtk_text_iter_backward_search buf.text start txt
      match found with
      | some (match_start, match_end) =>
        (gtk_text_buffer_select_range buf match_start match_end,
          { fdata with last_iter := match_end })
      | none =>
        if forward then (buf, { fdata with last_iter := gtk_text_buffer_get_start_iter buf })
        else (buf, { fdata with last_iter := gtk_text_buffer_get_end_iter buf })

/-- The handler `on_find_next_clicked`. -/
def on_find_next_clicked (buf : GtkTextBuffer) (fdata : FindData) (txt : Option (List Char)) :
    GtkTextBuffer × FindData :=
  find_next buf fdata txt true

/-- The handler `on_find_prev_clicked`. -/
def on_find_prev_clicked (buf : GtkTextBuffer) (fdata : FindData) (txt : Option (List Char)) :
    GtkTextBuffer × FindData :=
  find_next buf fdata txt false

/-- Offset from which a `find_next` call searches: the document start on the
first call of a session, the stored resume point afterwards. -/
def search_origin (fdata : FindData) : Nat :=
  if fdata.initialized then fdata.last_iter else 0

/-- State after `k` consecutive presses of the "next" button with the same entry text. -/
def find_forward_calls (txt : List Char) : Nat → GtkTextBuffer × FindData → GtkTextBuffer × FindData
  | 0, s => s
  | k + 1, s => find_forward_calls txt k (on_find_next_clicked s.1 s.2 (some txt))

/-- State after a sequence of `find_next` calls, each with its own direction and entry text. -/
def find_calls : List (Bool × Option (List Char)) → GtkTextBuffer × FindData → GtkTextBuffer × FindData
  | [], s => s
  | (forward, txt) :: rest, s => find_calls rest (find_next s.1 s.2 txt forward)

/-- The spec's enumeration of matches: a leftmost, non-overlapping scan.  `pos`
is the offset of the head of the remaining text; `skip` counts the characters
of the last reported match that are still to be stepped over. -/
def scan_matches (q : List Char) : List Char → Nat → Nat → List (Nat × Nat)
  | [], _, _ => []
  | c :: cs, pos, 0 =>
    if q.isPrefixOf (c :: cs) then
      (pos, pos + q.length) :: scan_matches q cs (pos + 1) (q.length - 1)
    else scan_matches q cs (pos + 1) 0
  | _ :: cs, pos, skip + 1 => scan_matches q cs (pos + 1) skip

/-- Matches of `q` in `content` in a leftmost, non-overlapping scan from offset 0. -/
def matches_of (content q : List Char) : List (Nat × Nat) :=
  scan_matches q content 0 0

/-- The query `q` occurs literally in `text` at offset `s`. -/
def occurs_at (text q : List Char) (s : Nat) : Prop :=
  (text.drop s).take q.length = q

instance (text q : List Char) (s : Nat) : Decidable (occurs_at text q s) :=
  inferInstanceAs (Decidable ((text.drop s).take q.length = q))

/-! ## Machine integers -/

/-- The `gint` (32-bit two's complement `int`) that holds a non-negative count: this is the
conversion of a `gsize` to the `int` parameter it is passed for, and the value of a count
that a library function returns as a `gint`. -/
def to_gint (n : Nat) : Int :=
  if n % 2 ^ 32 < 2 ^ 31 then ((n % 2 ^ 32 : Nat) : Int) else ((n % 2 ^ 32 : Nat) : Int) - 2 ^ 32

/-- Addition of two `gint` values as the machine performs it: the sum is reduced modulo
2^32 into the range from -2^31 to 2^31 - 1. -/
def gint_add (a b : Int) : Int := to_gint ((a + b) % 2 ^ 32).toNat

/-! ## Status line -/

/-- The text view widget; the only part of it the program reads is its buffer. -/
structure GtkTextView where
  buffer : GtkTextBuffer
  deriving DecidableEq, Repr

/-- Handle of a file chosen in a file dialog. -/
abbrev GFile := String

/-- Application data (`struct AppData`).  The window pointer carries no state
that the functions below read or write. -/
structure AppData where
  textview : GtkTextView
  current_file : Option GFile
  word_wrap : Bool
  last_search : Option (List Char)
  deriving DecidableEq, Repr

/-- The call `gtk_text_view_get_buffer`. -/
def gtk_text_view_get_buffer (view : GtkTextView) : GtkTextBuffer := view.buffer

/-- Offset of the iterator that `gtk_text_buffer_get_iter_at_mark` yields for
the mark returned by `gtk_text_buffer_get_insert`. -/
def gtk_text_buffer_get_iter_at_insert (buf : GtkTextBuffer) : Nat := buf.insert

/-- One pass over the text up to an offset, keeping the 0-based line number and
the 0-based offset within the line: a line terminator starts a new line, any
other character advances within the line. -/
def line_col_scan (is_terminator : Char → Bool) : List Char → Nat → Nat × Nat → Nat × Nat
  | [], _, acc => acc
  | _ :: _, 0, acc => acc
  | c :: cs, n + 1, (line, col) =>
    if is_terminator c then line_col_scan is_terminator cs n (line + 1, 0)
    else line_col_scan is_terminator cs n (line, col + 1)

/-- Modelled from the spec: `gtk_text_iter_get_line` is a GTK library function,
absent from the repository.  Following the spec's PositionIndex it scans the
content from the start and counts the line terminators before the offset
(0-based).  Which characters terminate a line is left as the parameter
`is_terminator`. -/
def gtk_text_iter_get_line (is_terminator : Char → Bool) (text : List Char) (offset : Nat) : Nat :=
  (line_col_scan is_terminator text offset (0, 0)).1

/-- Modelled from the spec: `gtk_text_iter_get_line_offset` is a GTK library
function, absent from the repository.  Following the spec's PositionIndex it
is the distance from the last line terminator before the offset, or from
position 0 if there is none (0-based). -/
def gtk_text_iter_get_line_offset (is_terminator : Char → Bool) (text : List Char)
    (offset : Nat) : Nat :=
  (line_col_scan is_terminator text offset (0, 0)).2

/-- The function `update_status` of the source: the pair (line, column) that it
formats into the status label as "Line: %d, Column: %d".  Both library calls
return a `gint`, and `line` and `col` are `gint` variables, so each `+ 1` is a
32-bit addition. -/
def update_status (is_terminator : Char → Bool) (d : AppData) : Int × Int :=
  let buf := gtk_text_view_get_buffer d.textview
  let iter := gtk_text_buffer_get_iter_at_insert buf
  let line := gint_add (to_gint (gtk_text_iter_get_line is_terminator buf.text iter)) 1
  let col := gint_add (to_gint (gtk_text_iter_get_line_offset is_terminator buf.text iter)) 1
  (line, col)

/-! ## Files -/

/-- Error reported by a GIO file operation (an I/O error). -/
inductive GError where
  | G_IO_ERROR_NOT_FOUND
  | G_IO_ERROR_PERMISSION_DENIED
  deriving DecidableEq, Repr

/-- The part of the file system the program touches: what each file holds (as
the character sequence its bytes encode in UTF-8) and whether it can be written. -/
structure FileSystem where
  contents : GFile → Option (List Char)
  writable : GFile → Bool

/-- The NUL character, which ends a C string. -/
def NUL : Char := Char.ofNat 0

/-- Number of bytes of the UTF-8 encoding of a character sequence. -/
def utf8_len (s : List Char) : Nat := (s.map Char.utf8Size).sum

/-- The characters a C string pointer denotes: everything before the first NUL. -/
def c_string (s : List Char) : List Char := s.takeWhile (fun c => c != NUL)

/-- The call `std::strlen`: the number of bytes before the first NUL. -/
def strlen (s : List Char) : Nat := utf8_len (c_string s)

/-- The characters lying wholly inside the first `n` bytes of the encoding. -/
def take_bytes : Nat → List Char → List Char
  | _, [] => []
  | n, c :: cs => if c.utf8Size ≤ n then c :: take_bytes (n - c.utf8Size) cs else []

/-- The call `g_utf8_validate (text, len, NULL)` for `len > 0` on text that is
UTF-8 up to its end: the first `len` bytes must end on a character boundary
and, as GLib documents, none of them may be NUL. -/
def g_utf8_validate (text : List Char) (len : Nat) : Bool :=
  decide (utf8_len (take_bytes len text) = len) && (take_bytes len text).all (fun c => c != NUL)

/-- The call `gtk_text_buffer_set_text (buf, text, len)` of GTK, whose `len` is an
`int`: a negative `len` is replaced by `strlen (text)`, stored in that same `int`; the old
contents are deleted; the first `len` bytes are inserted if `len > 0` and they pass
`g_utf8_validate`, otherwise nothing is inserted and the buffer stays empty.  Both marks
follow the inserted text to its end. -/
def gtk_text_buffer_set_text (_buf : GtkTextBuffer) (text : List Char) (len : Int) : GtkTextBuffer :=
  let len : Int := if len < 0 then to_gint (strlen text) else len
  let cleared : GtkTextBuffer := { text := [], insert := 0, selection_bound := 0 }
  if 0 < len ∧ g_utf8_validate text len.toNat = true then
    let inserted := take_bytes len.toNat text
    { text := inserted, insert := inserted.length, selection_bound := inserted.length }
  else cleared

/-- The call `gtk_text_buffer_get_text (buf, start, end, FALSE)`: the text
between two offsets (the buffer holds no embedded objects and no hidden text). -/
def gtk_text_buffer_get_text (buf : GtkTextBuffer) (start stop : Nat) : List Char :=
  (buf.text.drop start).take (stop - start)

/-- The call `g_file_load_contents`: the whole file and its length in bytes. -/
def g_file_load_contents (fs : FileSystem) (file : GFile) : Except GError (List Char × Nat) :=
  match fs.contents file with
  | some contents => .ok (contents, utf8_len contents)
  | none => .error GError.G_IO_ERROR_NOT_FOUND

/-- The call `g_file_replace_contents (file, contents, length, ...)`: on success
the file holds the first `length` bytes of `contents`; on failure nothing is
written. -/
def g_file_replace_contents (fs : FileSystem) (file : GFile) (contents : List Char)
    (length : Nat) : Except GError FileSystem :=
  if fs.writable file then
    .ok { fs with contents := fun f => if f = file then some (take_bytes length contents) else fs.contents f }
  else .error GError.G_IO_ERROR_PERMISSION_DENIED

/-- The function `save_to_file` of the source.  It returns `void`: the result of
`g_file_replace_contents` is dropped and no `GError` slot is passed to it, so
all that comes back is the application data and the file system. -/
def save_to_file (d : AppData) (fs : FileSystem) (file : GFile) : AppData × FileSystem :=
  let buf := gtk_text_view_get_buffer d.textview
  let start := gtk_text_buffer_get_start_iter buf
  let stop := gtk_text_buffer_get_end_iter buf
  let text := gtk_text_buffer_get_text buf start stop
  match g_file_replace_contents fs file text (strlen text) with
  | .ok fs1 => (d, fs1)
  | .error _ => (d, fs)

/-- The function `save_as_finish` of the source; `res` is the file returned by
`gtk_file_dialog_save_finish` (`none` when the dialog was dismissed). -/
def save_as_finish (d : AppData) (fs : FileSystem) (res : Option GFile) : AppData × FileSystem :=
  match res with
  | none => (d, fs)
  | some file =>
    let d := { d with current_file := some file }
    save_to_file d fs file

/-- The function `open_finish` of the source; `res` is the file returned by
`gtk_file_dialog_open_finish` (`none` when the dialog was dismissed). -/
def open_finish (d : AppData) (fs : FileSystem) (res : Option GFile) : AppData :=
  match res with
  | none => d
  | some file =>
    match g_file_load_contents fs file with
    | .ok (contents, len) =>
      let buf := gtk_text_view_get_buffer d.textview
      let buf := gtk_text_buffer_set_text buf contents (to_gint len)
      { d with textview := { buffer := buf }, current_file := some file }
    | .error _ => d

/-! ## Literal occurrences -/

theorem isPrefixOf_drop_iff (text q : List Char) (s : Nat) :
    q.isPrefixOf (text.drop s) = true ↔ occurs_at text q s := by
  unfold occurs_at
  rw [List.isPrefixOf_iff_prefix, List.prefix_iff_eq_take]
  exact eq_comm

theorem occurs_at_length_le {text q : List Char} {s : Nat} (h : occurs_at text q s)
    (hq : q ≠ []) : s + q.length ≤ text.length := by
  unfold occurs_at at h
  have h1 : ((text.drop s).take q.length).length = q.length := by rw [h]
  rw [List.length_take, List.length_drop] at h1
  have h2 : 0 < q.length := List.length_pos.mpr hq
  omega

theorem first_occurrence_none {q : List Char} :
    ∀ (l : List Char) (pos : Nat), first_occurrence q l pos = none →
      ∀ j, q.isPrefixOf (l.drop j) = false := by
  intro l
  induction l with
  | nil =>
    intro pos h j
    simp only [first_occurrence] at h
    by_cases hp : q.isPrefixOf [] = true
    · simp [hp] at h
    · rw [List.drop_nil]; exact Bool.eq_false_iff.mpr hp
  | cons c cs ih =>
    intro pos h j
    simp only [first_occurrence] at h
    by_cases hp : q.isPrefixOf (c :: cs) = true
    · simp [hp] at h
    · rw [if_neg hp] at h
      cases j with
      | zero => exact Bool.eq_false_iff.mpr hp
      | succ j => simpa using ih (pos + 1) h j

theorem first_occurrence_some {q : List Char} :
    ∀ (l : List Char) (pos s : Nat), first_occurrence q l pos = some s →
      ∃ j, s = pos + j ∧ j ≤ l.length ∧ q.isPrefixOf (l.drop j) = true ∧
        ∀ i, i < j → q.isPrefixOf (l.drop i) = false := by
  intro l
  induction l with
  | nil =>
    intro pos s h
    simp only [first_occurrence] at h
    by_cases hp : q.isPrefixOf [] = true
    · rw [if_pos hp] at h
      refine ⟨0, ?_, ?_, ?_, ?_⟩
      · simpa using (Option.some.inj h).symm
      · simp
      · simpa using hp
      · intro i hi; omega
    · simp [hp] at h
  | cons c cs ih =>
    intro pos s h
    simp only [first_occurrence] at h
    by_cases hp : q.isPrefixOf (c :: cs) = true
    · rw [if_pos hp] at h
      refine ⟨0, ?_, ?_, ?_, ?_⟩
      · simpa using (Option.some.inj h).symm
      · simp
      · simpa using hp
      · intro i hi; omega
    · rw [if_neg hp] at h
      obtain ⟨j, hs, hj, hpj, hmin⟩ := ih (pos + 1) s h
      refine ⟨j + 1, by omega, by simpa using hj, by simpa using hpj, ?_⟩
      intro i hi
      cases i with
      | zero => exact Bool.eq_false_iff.mpr hp
      | succ i => simpa using hmin i (by omega)

theorem last_occurrence_none {q text : List Char} :
    ∀ n, last_occurrence q text n = none → ∀ s, s < n → q.isPrefixOf (text.drop s) = false := by
  intro n
  induction n with
  | zero => intro _ s hs; omega
  | succ n ih =>
    intro h s hs
    simp only [last_occurrence] at h
    by_cases hp : q.isPrefixOf (text.drop n) = true
    · simp [hp] at h
    · rw [if_neg hp] at h
      by_cases hsn : s = n
      · subst hsn; exact Bool.eq_false_iff.mpr hp
      · exact ih h s (by omega)

theorem last_occurrence_some {q text : List Char} :
    ∀ n s, last_occurrence q text n = some s →
      s < n ∧ q.isPrefixOf (text.drop s) = true ∧
        ∀ i, s < i → i < n → q.isPrefixOf (text.drop i) = false := by
  intro n
  induction n with
  | zero => intro s h; simp [last_occurrence] at h
  | succ n ih =>
    intro s h
    simp only [last_occurrence] at h
    by_cases hp : q.isPrefixOf (text.drop n) = true
    · rw [if_pos hp] at h
      have hs : n = s := Option.some.inj h
      subst hs
      exact ⟨by omega, hp, fun i h1 h2 => by omega⟩
    · rw [if_neg hp] at h
      obtain ⟨h1, h2, h3⟩ := ih s h
      refine ⟨by omega, h2, ?_⟩
      intro i hi hin
      by_cases hin2 : i = n
      · subst hin2; exact Bool.eq_false_iff.mpr hp
      · exact h3 i hi (by omega)

/-- Contract of the forward search: a hit is the first occurrence at or after the iterator. -/
theorem forward_search_some {text q : List Char} {c s e : Nat}
    (h : gtk_text_iter_forward_search text c q = some (s, e)) :
    e = s + q.length ∧ c ≤ s ∧ occurs_at text q s ∧
      ∀ i, c ≤ i → occurs_at text q i → s ≤ i := by
  unfold gtk_text_iter_forward_search at h
  cases hf : first_occurrence q (text.drop c) c with
  | none => simp [hf] at h
  | some s0 =>
    rw [hf] at h
    simp only [Option.map_some', Option.some.injEq, Prod.mk.injEq] at h
    obtain ⟨h1, h2⟩ := h
    subst h1
    obtain ⟨j, hs, _, hpj, hmin⟩ := first_occurrence_some _ _ _ hf
    rw [List.drop_drop] at hpj
    refine ⟨h2.symm, by omega, ?_, ?_⟩
    · rw [← isPrefixOf_drop_iff]; rw [hs]; simpa [Nat.add_comm] using hpj
    · intro i hci hocc
      by_contra hlt
      have hi : i - c < j := by omega
      have := hmin (i - c) hi
      rw [List.drop_drop] at this
      rw [← isPrefixOf_drop_iff] at hocc
      have e1 : c + (i - c) = i := by omega
      have e2 : (i - c) + c = i := by omega
      simp [e1, e2, hocc] at this

/-- Contract of the forward search: no hit means no occurrence at or after the iterator. -/
theorem forward_search_none {text q : List Char} {c : Nat}
    (h : gtk_text_iter_forward_search text c q = none) :
    ∀ i, c ≤ i → ¬ occurs_at text q i := by
  unfold gtk_text_iter_forward_search at h
  cases hf : first_occurrence q (text.drop c) c with
  | some s0 => simp [hf] at h
  | none =>
    intro i hci hocc
    have := first_occurrence_none _ _ hf (i - c)
    rw [List.drop_drop] at this
    rw [← isPrefixOf_drop_iff] at hocc
    have e1 : c + (i - c) = i := by omega
    have e2 : (i - c) + c = i := by omega
    simp [e1, e2, hocc] at this

/-- Contract of the backward search: a hit is the last occurrence ending at or before the iterator. -/
theorem backward_search_some {text q : List Char} {c s e : Nat}
    (h : gtk_text_iter_backward_search text c q = some (s, e)) :
    e = s + q.length ∧ s + q.length ≤ c ∧ occurs_at text q s ∧
      ∀ i, i + q.length ≤ c → occurs_at text q i → i ≤ s := by
  unfold gtk_text_iter_backward_search at h
  by_cases hle : q.length ≤ c
  · rw [if_pos hle] at h
    cases hf : last_occurrence q text (c - q.length + 1) with
    | none => simp [hf] at h
    | some s0 =>
      rw [hf] at h
      simp only [Option.map_some', Option.some.injEq, Prod.mk.injEq] at h
      obtain ⟨h1, h2⟩ := h
      subst h1
      obtain ⟨hlt, hp, hmax⟩ := last_occurrence_some _ _ hf
      refine ⟨h2.symm, by omega, (isPrefixOf_drop_iff _ _ _).mp hp, ?_⟩
      intro i hi hocc
      by_contra hgt
      have := hmax i (by omega) (by omega)
      rw [← isPrefixOf_drop_iff] at hocc
      simp [hocc] at this
  · simp [hle] at h

/-- Contract of the backward search: no hit means no occurrence ending at or before the iterator. -/
theorem backward_search_none {text q : List Char} {c : Nat}
    (h : gtk_text_iter_backward_search text c q = none) :
    ∀ i, i + q.length ≤ c → ¬ occurs_at text q i := by
  intro i hi hocc
  unfold gtk_text_iter_backward_search at h
  have hle : q.length ≤ c := by omega
  rw [if_pos hle] at h
  cases hf : last_occurrence q text (c - q.length + 1) with
  | some s0 => simp [hf] at h
  | none =>
    have := last_occurrence_none _ hf i (by omega)
    rw [← isPrefixOf_drop_iff] at hocc
    simp [hocc] at this

/-! ## One call of `find_next` -/

/-- The search a `find_next` call performs for a non-empty entry text. -/
theorem find_next_unfold (buf : GtkTextBuffer) (fd : FindData) (q : List Char) (hq : q ≠ [])
    (forward : Bool) :
    find_next buf fd (some q) forward =
      match (if forward then gtk_text_iter_forward_search buf.text (search_origin fd) q
             else gtk_text_iter_backward_search buf.text (search_origin fd) q) with
      | some (s, e) => (gtk_text_buffer_select_range buf s e, { last_iter := e, initialized := true })
      | none => (buf, { last_iter := if forward then 0 else buf.text.length, initialized := true }) := by
  obtain ⟨li, ini⟩ := fd
  cases ini <;> cases forward <;>
    simp only [find_next, search_origin, hq, if_false, if_true, Bool.not_false, Bool.not_true,
      gtk_text_buffer_get_start_iter, gtk_text_buffer_get_end_iter, Bool.false_eq_true]

theorem find_next_of_search_some (buf : GtkTextBuffer) (fd : FindData) (q : List Char)
    (hq : q ≠ []) (forward : Bool) (s e : Nat)
    (h : (if forward then gtk_text_iter_forward_search buf.text (search_origin fd) q
          else gtk_text_iter_backward_search buf.text (search_origin fd) q) = some (s, e)) :
    find_next buf fd (some q) forward =
      (gtk_text_buffer_select_range buf s e, { last_iter := e, initialized := true }) := by
  rw [find_next_unfold buf fd q hq forward, h]

theorem find_next_of_search_none (buf : GtkTextBuffer) (fd : FindData) (q : List Char)
    (hq : q ≠ []) (forward : Bool)
    (h : (if forward then gtk_text_iter_forward_search buf.text (search_origin fd) q
          else gtk_text_iter_backward_search buf.text (search_origin fd) q) = none) :
    find_next buf fd (some q) forward =
      (buf, { last_iter := if forward then 0 else buf.text.length, initialized := true }) := by
  rw [find_next_unfold buf fd q hq forward, h]

theorem find_next_null (buf : GtkTextBuffer) (fd : FindData) (forward : Bool) :
    find_next buf fd none forward = (buf, fd) := rfl

theorem find_next_empty (buf : GtkTextBuffer) (fd : FindData) (forward : Bool) :
    find_next buf fd (some []) forward = (buf, fd) := by
  simp [find_next]

/-- A fresh session searches from the document start: the stale resume point is not read. -/
theorem find_next_fresh (buf : GtkTextBuffer) (li : Nat) (txt : Option (List Char))
    (forward : Bool) :
    find_next buf { last_iter := li, initialized := false } txt forward =
      match txt with
      | none => (buf, { last_iter := li, initialized := false })
      | some q =>
        if q = [] then (buf, { last_iter := li, initialized := false })
        else find_next buf { last_iter := 0, initialized := true } (some q) forward := by
  cases txt with
  | none => rfl
  | some q =>
    by_cases hq : q = []
    · subst hq; simp [find_next]
    · simp only [hq, if_false]
      rw [find_next_unfold buf _ q hq, find_next_unfold buf _ q hq]
      simp [search_origin]

/-! ## Repeated forward calls and the leftmost non-overlapping scan -/

theorem scan_matches_skip (q : List Char) :
    ∀ (k : Nat) (l : List Char) (pos : Nat),
      scan_matches q l pos k = scan_matches q (l.drop k) (pos + k) 0 := by
  intro k
  induction k with
  | zero => intro l pos; simp
  | succ k ih =>
    intro l pos
    cases l with
    | nil => simp [scan_matches]
    | cons c cs =>
      simp only [scan_matches, List.drop_succ_cons]
      rw [ih cs (pos + 1)]
      congr 1
      omega

theorem scan_matches_of_first_none (q : List Char) :
    ∀ (l : List Char) (pos : Nat), first_occurrence q l pos = none →
      scan_matches q l pos 0 = [] := by
  intro l
  induction l with
  | nil => intro pos _; simp [scan_matches]
  | cons c cs ih =>
    intro pos h
    simp only [first_occurrence] at h
    by_cases hp : q.isPrefixOf (c :: cs) = true
    · simp [hp] at h
    · rw [if_neg hp] at h
      simp only [scan_matches, if_neg hp]
      exact ih (pos + 1) h

theorem scan_matches_of_first_some (q : List Char) (hq : q ≠ []) :
    ∀ (l : List Char) (pos s : Nat), first_occurrence q l pos = some s →
      ∃ j, s = pos + j ∧
        scan_matches q l pos 0 =
          (s, s + q.length) :: scan_matches q (l.drop (j + q.length)) (s + q.length) 0 := by
  have hlen : 0 < q.length := List.length_pos.mpr hq
  intro l
  induction l with
  | nil =>
    intro pos s h
    simp only [first_occurrence] at h
    have : q.isPrefixOf [] = false := by
      cases q with
      | nil => exact absurd rfl hq
      | cons a as => rfl
    simp [this] at h
  | cons c cs ih =>
    intro pos s h
    simp only [first_occurrence] at h
    by_cases hp : q.isPrefixOf (c :: cs) = true
    · rw [if_pos hp] at h
      have hs : pos = s := Option.some.inj h
      subst hs
      refine ⟨0, rfl, ?_⟩
      simp only [scan_matches, if_pos hp]
      rw [scan_matches_skip q (q.length - 1) cs (pos + 1)]
      have e1 : 0 + q.length = (q.length - 1) + 1 := by omega
      have e2 : pos + 1 + (q.length - 1) = pos + q.length := by omega
      rw [e1, List.drop_succ_cons, e2]
    · rw [if_neg hp] at h
      obtain ⟨j, hs, hscan⟩ := ih (pos + 1) s h
      refine ⟨j + 1, by omega, ?_⟩
      simp only [scan_matches, if_neg hp]
      rw [hscan]
      have e1 : j + 1 + q.length = (j + q.length) + 1 := by omega
      rw [e1, List.drop_succ_cons]

/-- The matches that a scan reports from resume point `c` onwards. -/
theorem scan_from_none (text q : List Char) (c : Nat)
    (h : gtk_text_iter_forward_search text c q = none) :
    scan_matches q (text.drop c) c 0 = [] := by
  unfold gtk_text_iter_forward_search at h
  cases hf : first_occurrence q (text.drop c) c with
  | some s0 => simp [hf] at h
  | none => exact scan_matches_of_first_none q _ _ hf

theorem scan_from_some (text q : List Char) (hq : q ≠ []) (c s e : Nat)
    (h : gtk_text_iter_forward_search text c q = some (s, e)) :
    scan_matches q (text.drop c) c 0 = (s, e) :: scan_matches q (text.drop e) e 0 := by
  unfold gtk_text_iter_forward_search at h
  cases hf : first_occurrence q (text.drop c) c with
  | none => simp [hf] at h
  | some s0 =>
    rw [hf] at h
    simp only [Option.map_some', Option.some.injEq, Prod.mk.injEq] at h
    obtain ⟨h1, h2⟩ := h
    subst h1
    obtain ⟨j, hs, hscan⟩ := scan_matches_of_first_some q hq _ _ _ hf
    rw [hscan, List.drop_drop, h2]
    have e1 : c + (j + q.length) = e := by omega
    have e2 : (j + q.length) + c = e := by omega
    simp [e1, e2]

theorem find_forward_calls_succ (q : List Char) (k : Nat) (s : GtkTextBuffer × FindData) :
    find_forward_calls q (k + 1) s =
      on_find_next_clicked (find_forward_calls q k s).1 (find_forward_calls q k s).2 (some q) := by
  induction k generalizing s with
  | zero => rfl
  | succ k ih =>
    have h : find_forward_calls q (k + 1 + 1) s
        = find_forward_calls q (k + 1) (on_find_next_clicked s.1 s.2 (some q)) := rfl
    rw [h, ih]
    rfl

/-- From an initialised session at resume point `c`, the forward calls walk through the scan
of the text from `c`, and the call after the last match only resets the resume point. -/
theorem forward_calls_follow_scan (text q : List Char) (hq : q ≠ []) :
    ∀ (ms : List (Nat × Nat)) (c ins bnd : Nat),
      scan_matches q (text.drop c) c 0 = ms →
      (∀ k m, ms[k]? = some m →
        find_forward_calls q (k + 1)
            (⟨text, ins, bnd⟩, { last_iter := c, initialized := true }) =
          (⟨text, m.1, m.2⟩, { last_iter := m.2, initialized := true })) ∧
      find_forward_calls q (ms.length + 1)
          (⟨text, ins, bnd⟩, { last_iter := c, initialized := true }) =
        ((find_forward_calls q ms.length
            (⟨text, ins, bnd⟩, { last_iter := c, initialized := true })).1,
          { last_iter := 0, initialized := true }) := by
  intro ms
  induction ms with
  | nil =>
    intro c ins bnd hscan
    have hnone : gtk_text_iter_forward_search text c q = none := by
      cases hf : gtk_text_iter_forward_search text c q with
      | none => rfl
      | some p =>
        obtain ⟨s, e⟩ := p
        rw [scan_from_some text q hq c s e hf] at hscan
        exact absurd hscan (by simp)
    refine ⟨by intro k m h; simp at h, ?_⟩
    have := find_next_of_search_none ⟨text, ins, bnd⟩ { last_iter := c, initialized := true }
      q hq true (by simpa [search_origin] using hnone)
    simpa [find_forward_calls, on_find_next_clicked] using this
  | cons m rest ih =>
    intro c ins bnd hscan
    obtain ⟨s, e⟩ := m
    have hsome : gtk_text_iter_forward_search text c q = some (s, e) ∧
        scan_matches q (text.drop e) e 0 = rest := by
      cases hf : gtk_text_iter_forward_search text c q with
      | none =>
        rw [scan_from_none text q c hf] at hscan
        exact absurd hscan (by simp)
      | some p =>
        obtain ⟨s1, e1⟩ := p
        rw [scan_from_some text q hq c s1 e1 hf] at hscan
        simp only [List.cons.injEq, Prod.mk.injEq] at hscan
        obtain ⟨⟨h1, h2⟩, h3⟩ := hscan
        subst h1; subst h2
        exact ⟨rfl, h3⟩
    obtain ⟨hf, hrest⟩ := hsome
    have hstep : on_find_next_clicked ⟨text, ins, bnd⟩ { last_iter := c, initialized := true }
        (some q) = (⟨text, s, e⟩, { last_iter := e, initialized := true }) := by
      have := find_next_of_search_some ⟨text, ins, bnd⟩ { last_iter := c, initialized := true }
        q hq true s e (by simpa [search_origin] using hf)
      simpa [on_find_next_clicked, gtk_text_buffer_select_range] using this
    obtain ⟨ihA, ihB⟩ := ih e s e hrest
    refine ⟨?_, ?_⟩
    · intro k m hk
      cases k with
      | zero =>
        simp only [List.getElem?_cons_zero, Option.some.injEq] at hk
        subst hk
        simp [find_forward_calls, hstep]
      | succ k =>
        simp only [List.getElem?_cons_succ] at hk
        have := ihA k m hk
        simp only [find_forward_calls] at this ⊢
        rw [hstep]
        exact this
    · simp only [List.length_cons]
      have h1 : find_forward_calls q (rest.length + 1 + 1)
            (⟨text, ins, bnd⟩, { last_iter := c, initialized := true })
          = find_forward_calls q (rest.length + 1)
              (⟨text, s, e⟩, { last_iter := e, initialized := true }) := by
        conv_lhs => rw [find_forward_calls]
        rw [hstep]
      have h2 : find_forward_calls q (rest.length + 1)
            (⟨text, ins, bnd⟩, { last_iter := c, initialized := true })
          = find_forward_calls q rest.length
              (⟨text, s, e⟩, { last_iter := e, initialized := true }) := by
        conv_lhs => rw [find_forward_calls]
        rw [hstep]
      rw [h1, h2]
      exact ihB

theorem forward_search_of_scan_cons (text q : List Char) (hq : q ≠ []) (c : Nat)
    (m : Nat × Nat) (rest : List (Nat × Nat))
    (hscan : scan_matches q (text.drop c) c 0 = m :: rest) :
    gtk_text_iter_forward_search text c q = some m := by
  cases hf : gtk_text_iter_forward_search text c q with
  | none =>
    rw [scan_from_none text q c hf] at hscan
    exact absurd hscan (by simp)
  | some p =>
    obtain ⟨s1, e1⟩ := p
    rw [scan_from_some text q hq c s1 e1 hf] at hscan
    simp only [List.cons.injEq] at hscan
    rw [hscan.1]

theorem find_next_text (buf : GtkTextBuffer) (fd : FindData) (txt : Option (List Char))
    (forward : Bool) : (find_next buf fd txt forward).1.text = buf.text := by
  cases txt with
  | none => rfl
  | some q =>
    by_cases hq : q = []
    · subst hq; rw [find_next_empty]
    · rw [find_next_unfold buf fd q hq forward]
      split <;> simp [gtk_text_buffer_select_range]

theorem find_forward_calls_text (q : List Char) :
    ∀ (k : Nat) (s : GtkTextBuffer × FindData), (find_forward_calls q k s).1.text = s.1.text := by
  intro k
  induction k with
  | zero => intro s; rfl
  | succ k ih =>
    intro s
    simp only [find_forward_calls]
    rw [ih, on_find_next_clicked, find_next_text]

theorem find_forward_calls_fresh (q : List Char) (hq : q ≠ []) (buf : GtkTextBuffer)
    (li k : Nat) :
    find_forward_calls q (k + 1) (buf, { last_iter := li, initialized := false }) =
      find_forward_calls q (k + 1) (buf, { last_iter := 0, initialized := true }) := by
  simp only [find_forward_calls, on_find_next_clicked]
  rw [find_next_fresh]
  simp [hq]

theorem find_forward_calls_fresh_buffer (q : List Char) (hq : q ≠ []) (buf : GtkTextBuffer)
    (li k : Nat) :
    (find_forward_calls q k (buf, { last_iter := li, initialized := false })).1 =
      (find_forward_calls q k (buf, { last_iter := 0, initialized := true })).1 := by
  cases k with
  | zero => rfl
  | succ k => rw [find_forward_calls_fresh q hq]

/-- C1: from a fresh find session on unchanged content, with a non-empty query, the k-th
forward call (k = 1..n) selects the k-th match of the leftmost non-overlapping scan from
offset 0; call n+1 leaves the selection as it was and puts the resume point at offset 0;
call n+2 selects the first match again (the scan having a first match). -/
theorem find_next_forward_visits_matches (text : List Char) (ins bnd li : Nat) (q : List Char)
    (hq : q ≠ []) :
    (∀ k m, (matches_of text q)[k]? = some m →
      find_forward_calls q (k + 1) (⟨text, ins, bnd⟩, { last_iter := li, initialized := false }) =
        (⟨text, m.1, m.2⟩, { last_iter := m.2, initialized := true })) ∧
    find_forward_calls q ((matches_of text q).length + 1)
        (⟨text, ins, bnd⟩, { last_iter := li, initialized := false }) =
      ((find_forward_calls q (matches_of text q).length
          (⟨text, ins, bnd⟩, { last_iter := li, initialized := false })).1,
        { last_iter := 0, initialized := true }) ∧
    (∀ m, (matches_of text q).head? = some m →
      (find_forward_calls q ((matches_of text q).length + 2)
        (⟨text, ins, bnd⟩, { last_iter := li, initialized := false })).1 = ⟨text, m.1, m.2⟩) := by
  have hscan : scan_matches q (text.drop 0) 0 0 = matches_of text q := by
    simp [matches_of]
  obtain ⟨hA, hB⟩ := forward_calls_follow_scan text q hq (matches_of text q) 0 ins bnd hscan
  refine ⟨?_, ?_, ?_⟩
  · intro k m hk
    rw [find_forward_calls_fresh q hq]
    exact hA k m hk
  · rw [find_forward_calls_fresh q hq, find_forward_calls_fresh_buffer q hq]
    exact hB
  · intro m hm
    have hsucc : (matches_of text q).length + 2 = ((matches_of text q).length + 1) + 1 := rfl
    rw [hsucc, find_forward_calls_succ, find_forward_calls_fresh q hq, hB]
    cases hms : matches_of text q with
    | nil => rw [hms] at hm; simp at hm
    | cons m0 rest =>
      rw [hms] at hm
      simp only [List.head?_cons, Option.some.injEq] at hm
      subst hm
      rw [hms] at hscan
      have hf := forward_search_of_scan_cons text q hq 0 m0 rest hscan
      have htext := find_forward_calls_text q (rest.length + 1)
        (⟨text, ins, bnd⟩, { last_iter := 0, initialized := true })
      simp only [List.length_cons]
      simp only at htext
      rw [on_find_next_clicked]
      have := find_next_of_search_some
        (find_forward_calls q (rest.length + 1)
          (⟨text, ins, bnd⟩, { last_iter := 0, initialized := true })).1
        { last_iter := 0, initialized := true } q hq true m0.1 m0.2
        (by simpa [search_origin, htext] using hf)
      rw [this]
      simp [gtk_text_buffer_select_range, htext]

/-- C1, the spec's scenario: in "alpha beta alpha" the query "alpha" is selected at [0,5),
then at [11,16); the third call keeps the selection and resets the resume point to 0; the
fourth call selects [0,5) again. -/
theorem find_next_forward_visits_matches_witness :
    "alpha".toList ≠ [] ∧
    matches_of "alpha beta alpha".toList "alpha".toList = [(0, 5), (11, 16)] ∧
    find_forward_calls "alpha".toList 1
        (⟨"alpha beta alpha".toList, 3, 3⟩, { last_iter := 9, initialized := false }) =
      (⟨"alpha beta alpha".toList, 0, 5⟩, { last_iter := 5, initialized := true }) ∧
    find_forward_calls "alpha".toList 2
        (⟨"alpha beta alpha".toList, 3, 3⟩, { last_iter := 9, initialized := false }) =
      (⟨"alpha beta alpha".toList, 11, 16⟩, { last_iter := 16, initialized := true }) ∧
    find_forward_calls "alpha".toList 3
        (⟨"alpha beta alpha".toList, 3, 3⟩, { last_iter := 9, initialized := false }) =
      (⟨"alpha beta alpha".toList, 11, 16⟩, { last_iter := 0, initialized := true }) ∧
    (find_forward_calls "alpha".toList 4
        (⟨"alpha beta alpha".toList, 3, 3⟩, { last_iter := 9, initialized := false })).1 =
      ⟨"alpha beta alpha".toList, 0, 5⟩ := by
  have hq : "alpha".toList ≠ [] := by decide
  have hms : matches_of "alpha beta alpha".toList "alpha".toList = [(0, 5), (11, 16)] := by
    decide
  obtain ⟨hA, hB, hC⟩ :=
    find_next_forward_visits_matches "alpha beta alpha".toList 3 3 9 "alpha".toList hq
  rw [hms] at hA hB hC
  have h2 := hA 1 (11, 16) rfl
  refine ⟨hq, hms, hA 0 (0, 5) rfl, h2, ?_, hC (0, 5) rfl⟩
  have h3 := hB
  simp only [List.length_cons, List.length_nil] at h3
  rw [h3, h2]

/-! ## Outcome of a single call -/

/-- C2: when the search of a `find_next` call with a non-empty query finds nothing, that
call puts the resume point at the document start (forward) or the document end (backward),
marks the session initialised, and leaves text and selection exactly as they were; no
second search from the wrapped position takes place within the call. -/
theorem find_next_no_match_wraps (buf : GtkTextBuffer) (fd : FindData) (q : List Char)
    (forward : Bool) (hq : q ≠ [])
    (hnone : (if forward then gtk_text_iter_forward_search buf.text (search_origin fd) q
              else gtk_text_iter_backward_search buf.text (search_origin fd) q) = none) :
    find_next buf fd (some q) forward =
      (buf, { last_iter := if forward then 0 else buf.text.length, initialized := true }) := by
  exact find_next_of_search_none buf fd q hq forward hnone

/-- C2 at work: at the end of "alpha beta alpha" a forward search for "alpha" finds nothing;
the call only moves the resume point to 0 although "alpha" occurs at offset 0, and a
backward search from offset 3 only moves it to 16 although "alpha" ends at 16. -/
theorem find_next_no_match_wraps_witness :
    ("alpha".toList ≠ [] ∧
      gtk_text_iter_forward_search "alpha beta alpha".toList 16 "alpha".toList = none ∧
      find_next ⟨"alpha beta alpha".toList, 11, 16⟩ { last_iter := 16, initialized := true }
          (some "alpha".toList) true =
        (⟨"alpha beta alpha".toList, 11, 16⟩, { last_iter := 0, initialized := true })) ∧
    (gtk_text_iter_backward_search "alpha beta alpha".toList 3 "alpha".toList = none ∧
      find_next ⟨"alpha beta alpha".toList, 11, 16⟩ { last_iter := 3, initialized := true }
          (some "alpha".toList) false =
        (⟨"alpha beta alpha".toList, 11, 16⟩, { last_iter := 16, initialized := true })) :=
  ⟨⟨by decide, by decide,
      find_next_no_match_wraps ⟨"alpha beta alpha".toList, 11, 16⟩
        { last_iter := 16, initialized := true } "alpha".toList true (by decide) (by decide)⟩,
    by decide,
    find_next_no_match_wraps ⟨"alpha beta alpha".toList, 11, 16⟩
      { last_iter := 3, initialized := true } "alpha".toList false (by decide) (by decide)⟩

/-- C3 on the code: a backward call that finds the match [11,16) of "alpha" in
"alpha beta alpha" leaves the resume point at 16, the end of the match, not at its start 11;
the next backward call therefore finds the same match again.  The state is the one a fresh
session reaches by its first backward call, and three backward calls in a row end on
[11,16) with the resume point still at 16. -/
theorem find_next_backward_resumes_at_match_end :
    find_calls [(false, some "alpha".toList)]
        (⟨"alpha beta alpha".toList, 0, 0⟩, { last_iter := 0, initialized := false }) =
      (⟨"alpha beta alpha".toList, 0, 0⟩, { last_iter := 16, initialized := true }) ∧
    find_calls [(false, some "alpha".toList), (false, some "alpha".toList),
          (false, some "alpha".toList)]
        (⟨"alpha beta alpha".toList, 0, 0⟩, { last_iter := 0, initialized := false }) =
      (⟨"alpha beta alpha".toList, 11, 16⟩, { last_iter := 16, initialized := true }) ∧
    find_next ⟨"alpha beta alpha".toList, 0, 0⟩ { last_iter := 16, initialized := true }
        (some "alpha".toList) false =
      (⟨"alpha beta alpha".toList, 11, 16⟩, { last_iter := 16, initialized := true }) ∧
    (find_next ⟨"alpha beta alpha".toList, 0, 0⟩ { last_iter := 16, initialized := true }
        (some "alpha".toList) false).2.last_iter ≠ 11 ∧
    find_next ⟨"alpha beta alpha".toList, 11, 16⟩ { last_iter := 16, initialized := true }
        (some "alpha".toList) false =
      (⟨"alpha beta alpha".toList, 11, 16⟩, { last_iter := 16, initialized := true }) := by
  decide

/-- What the code does on a match, in either direction: the selection becomes the match span
and the resume point becomes the end of the match. -/
theorem find_next_match_sets_selection_and_end (buf : GtkTextBuffer) (fd : FindData)
    (q : List Char) (forward : Bool) (s e : Nat) (hq : q ≠ [])
    (hsome : (if forward then gtk_text_iter_forward_search buf.text (search_origin fd) q
              else gtk_text_iter_backward_search buf.text (search_origin fd) q) = some (s, e)) :
    find_next buf fd (some q) forward =
      (⟨buf.text, s, e⟩, { last_iter := e, initialized := true }) ∧ e = s + q.length := by
  rw [find_next_of_search_some buf fd q hq forward s e hsome]
  refine ⟨rfl, ?_⟩
  cases forward with
  | true => exact (forward_search_some (by simpa using hsome)).1
  | false => exact (backward_search_some (by simpa using hsome)).1

/-- C4: a `find_next` call with a non-empty query `q` and search origin `c` either selects a
span [s, s + length q) whose text is exactly `q`, where `s` is the smallest offset at or
after `c` at which `q` occurs (forward) or the largest offset with s + length q ≤ c at which
`q` occurs (backward); or it selects nothing, and that happens exactly when `q` has no
occurrence in that region. -/
theorem find_next_selects_nearest_occurrence (buf : GtkTextBuffer) (fd : FindData)
    (q : List Char) (hq : q ≠ []) :
    ((∃ s, occurs_at buf.text q s ∧ search_origin fd ≤ s ∧
          (∀ i, search_origin fd ≤ i → occurs_at buf.text q i → s ≤ i) ∧
          (find_next buf fd (some q) true).1 = ⟨buf.text, s, s + q.length⟩) ∨
      ((∀ i, search_origin fd ≤ i → ¬ occurs_at buf.text q i) ∧
        find_next buf fd (some q) true = (buf, { last_iter := 0, initialized := true }))) ∧
    ((∃ s, occurs_at buf.text q s ∧ s + q.length ≤ search_origin fd ∧
          (∀ i, i + q.length ≤ search_origin fd → occurs_at buf.text q i → i ≤ s) ∧
          (find_next buf fd (some q) false).1 = ⟨buf.text, s, s + q.length⟩) ∨
      ((∀ i, i + q.length ≤ search_origin fd → ¬ occurs_at buf.text q i) ∧
        find_next buf fd (some q) false =
          (buf, { last_iter := buf.text.length, initialized := true }))) := by
  constructor
  · cases hf : gtk_text_iter_forward_search buf.text (search_origin fd) q with
    | none =>
      right
      exact ⟨forward_search_none hf,
        find_next_of_search_none buf fd q hq true (by simpa using hf)⟩
    | some p =>
      left
      obtain ⟨s, e⟩ := p
      obtain ⟨he, hc, hocc, hmin⟩ := forward_search_some hf
      refine ⟨s, hocc, hc, hmin, ?_⟩
      rw [find_next_of_search_some buf fd q hq true s e (by simpa using hf), he]
      rfl
  · cases hf : gtk_text_iter_backward_search buf.text (search_origin fd) q with
    | none =>
      right
      exact ⟨backward_search_none hf,
        find_next_of_search_none buf fd q hq false (by simpa using hf)⟩
    | some p =>
      left
      obtain ⟨s, e⟩ := p
      obtain ⟨he, hc, hocc, hmax⟩ := backward_search_some hf
      refine ⟨s, hocc, hc, hmax, ?_⟩
      rw [find_next_of_search_some buf fd q hq false s e (by simpa using hf), he]
      rfl

/-- C4 at work: from offset 6 of "alpha beta alpha" the nearest "alpha" forward is [11,16)
and the nearest one backward is [0,5). -/
theorem find_next_selects_nearest_occurrence_witness :
    "alpha".toList ≠ [] ∧
    (((∃ s, occurs_at "alpha beta alpha".toList "alpha".toList s ∧
          search_origin { last_iter := 6, initialized := true } ≤ s ∧
          (∀ i, search_origin { last_iter := 6, initialized := true } ≤ i →
            occurs_at "alpha beta alpha".toList "alpha".toList i → s ≤ i) ∧
          (find_next ⟨"alpha beta alpha".toList, 0, 0⟩ { last_iter := 6, initialized := true }
            (some "alpha".toList) true).1 =
            ⟨"alpha beta alpha".toList, s, s + "alpha".toList.length⟩) ∨
      ((∀ i, search_origin { last_iter := 6, initialized := true } ≤ i →
          ¬ occurs_at "alpha beta alpha".toList "alpha".toList i) ∧
        find_next ⟨"alpha beta alpha".toList, 0, 0⟩ { last_iter := 6, initialized := true }
            (some "alpha".toList) true =
          (⟨"alpha beta alpha".toList, 0, 0⟩, { last_iter := 0, initialized := true }))) ∧
    ((∃ s, occurs_at "alpha beta alpha".toList "alpha".toList s ∧
          s + "alpha".toList.length ≤ search_origin { last_iter := 6, initialized := true } ∧
          (∀ i, i + "alpha".toList.length ≤
              search_origin { last_iter := 6, initialized := true } →
            occurs_at "alpha beta alpha".toList "alpha".toList i → i ≤ s) ∧
          (find_next ⟨"alpha beta alpha".toList, 0, 0⟩ { last_iter := 6, initialized := true }
            (some "alpha".toList) false).1 =
            ⟨"alpha beta alpha".toList, s, s + "alpha".toList.length⟩) ∨
      ((∀ i, i + "alpha".toList.length ≤
            search_origin { last_iter := 6, initialized := true } →
          ¬ occurs_at "alpha beta alpha".toList "alpha".toList i) ∧
        find_next ⟨"alpha beta alpha".toList, 0, 0⟩ { last_iter := 6, initialized := true }
            (some "alpha".toList) false =
          (⟨"alpha beta alpha".toList, 0, 0⟩,
            { last_iter := "alpha beta alpha".toList.length, initialized := true })))) ∧
    (find_next ⟨"alpha beta alpha".toList, 0, 0⟩ { last_iter := 6, initialized := true }
        (some "alpha".toList) true).1 = ⟨"alpha beta alpha".toList, 11, 16⟩ ∧
    (find_next ⟨"alpha beta alpha".toList, 0, 0⟩ { last_iter := 6, initialized := true }
        (some "alpha".toList) false).1 = ⟨"alpha beta alpha".toList, 0, 5⟩ :=
  ⟨by decide,
    find_next_selects_nearest_occurrence ⟨"alpha beta alpha".toList, 0, 0⟩
      { last_iter := 6, initialized := true } "alpha".toList (by decide),
    by decide, by decide⟩

/-! ## Sequences of calls -/

/-- C5: `find_next` with a null or an empty entry text does nothing: buffer text, both
selection marks, resume point and `initialized` flag are returned as they were, in either
direction, and so is the state after any number of such calls. -/
theorem find_next_empty_query_noop (buf : GtkTextBuffer) (fd : FindData) :
    (∀ forward, find_next buf fd none forward = (buf, fd)) ∧
    (∀ forward, find_next buf fd (some []) forward = (buf, fd)) ∧
    (∀ calls : List (Bool × Bool),
      find_calls (calls.map fun c => (c.1, if c.2 then none else some [])) (buf, fd) =
        (buf, fd)) := by
  refine ⟨fun forward => find_next_null buf fd forward,
    fun forward => find_next_empty buf fd forward, ?_⟩
  intro calls
  induction calls with
  | nil => rfl
  | cons c rest ih =>
    obtain ⟨forward, isNull⟩ := c
    cases isNull
    · simp only [List.map_cons, find_calls, Bool.false_eq_true, if_false]
      rw [find_next_empty]
      exact ih
    · simp only [List.map_cons, find_calls, if_true]
      rw [find_next_null]
      exact ih

/-- Offsets of a buffer and a find session that lie within the given text. -/
theorem find_next_keeps_bounds (buf : GtkTextBuffer) (fd : FindData)
    (txt : Option (List Char)) (forward : Bool)
    (h1 : buf.insert ≤ buf.text.length) (h2 : buf.selection_bound ≤ buf.text.length)
    (h3 : fd.initialized = true → fd.last_iter ≤ buf.text.length) :
    (find_next buf fd txt forward).1.text = buf.text ∧
    (find_next buf fd txt forward).1.insert ≤ buf.text.length ∧
    (find_next buf fd txt forward).1.selection_bound ≤ buf.text.length ∧
    ((find_next buf fd txt forward).2.initialized = true →
      (find_next buf fd txt forward).2.last_iter ≤ buf.text.length) := by
  cases txt with
  | none => exact ⟨rfl, h1, h2, h3⟩
  | some q =>
    by_cases hq : q = []
    · subst hq
      rw [find_next_empty]
      exact ⟨rfl, h1, h2, h3⟩
    · have hbound : ∀ s e, (if forward then
            gtk_text_iter_forward_search buf.text (search_origin fd) q
          else gtk_text_iter_backward_search buf.text (search_origin fd) q) = some (s, e) →
          s ≤ buf.text.length ∧ e ≤ buf.text.length := by
        intro s e h
        cases forward with
        | true =>
          obtain ⟨he, _, hocc, _⟩ := forward_search_some (by simpa using h)
          have := occurs_at_length_le hocc hq
          omega
        | false =>
          obtain ⟨he, _, hocc, _⟩ := backward_search_some (by simpa using h)
          have := occurs_at_length_le hocc hq
          omega
      cases hf : (if forward then gtk_text_iter_forward_search buf.text (search_origin fd) q
          else gtk_text_iter_backward_search buf.text (search_origin fd) q) with
      | none =>
        rw [find_next_of_search_none buf fd q hq forward hf]
        refine ⟨rfl, h1, h2, ?_⟩
        intro _
        cases forward <;> simp
      | some p =>
        obtain ⟨s, e⟩ := p
        rw [find_next_of_search_some buf fd q hq forward s e hf]
        obtain ⟨hs, he⟩ := hbound s e hf
        exact ⟨rfl, hs, he, fun _ => he⟩

theorem find_calls_keep_bounds (text : List Char) :
    ∀ (calls : List (Bool × Option (List Char))) (s : GtkTextBuffer × FindData),
      s.1.text = text → s.1.insert ≤ text.length → s.1.selection_bound ≤ text.length →
      (s.2.initialized = true → s.2.last_iter ≤ text.length) →
      (find_calls calls s).1.text = text ∧
      (find_calls calls s).1.insert ≤ text.length ∧
      (find_calls calls s).1.selection_bound ≤ text.length ∧
      ((find_calls calls s).2.initialized = true →
        (find_calls calls s).2.last_iter ≤ text.length) := by
  intro calls
  induction calls with
  | nil => intro s h0 h1 h2 h3; exact ⟨h0, h1, h2, h3⟩
  | cons c rest ih =>
    intro s h0 h1 h2 h3
    obtain ⟨forward, txt⟩ := c
    obtain ⟨buf, fd⟩ := s
    simp only at h0 h1 h2 h3
    subst h0
    obtain ⟨k0, k1, k2, k3⟩ := find_next_keeps_bounds buf fd txt forward h1 h2 h3
    simp only [find_calls]
    exact ih _ k0 k1 k2 k3

/-- C6: on unchanged content whose selection marks start within the text, after every call
of any finite sequence of `find_next` calls made from a fresh find session (any directions,
any entry texts) the text is the same, 0 ≤ selection_start ≤ selection_end ≤ length of the
text, and the resume point is at most the length of the text whenever `initialized` is
true. -/
theorem find_calls_offsets_in_bounds (text : List Char) (ins bnd li : Nat)
    (calls : List (Bool × Option (List Char))) (k : Nat)
    (h1 : ins ≤ text.length) (h2 : bnd ≤ text.length) :
    (find_calls (calls.take k)
        (⟨text, ins, bnd⟩, { last_iter := li, initialized := false })).1.text = text ∧
    0 ≤ selection_start (find_calls (calls.take k)
        (⟨text, ins, bnd⟩, { last_iter := li, initialized := false })).1 ∧
    selection_start (find_calls (calls.take k)
        (⟨text, ins, bnd⟩, { last_iter := li, initialized := false })).1 ≤
      selection_end (find_calls (calls.take k)
        (⟨text, ins, bnd⟩, { last_iter := li, initialized := false })).1 ∧
    selection_end (find_calls (calls.take k)
        (⟨text, ins, bnd⟩, { last_iter := li, initialized := false })).1 ≤ text.length ∧
    ((find_calls (calls.take k)
        (⟨text, ins, bnd⟩, { last_iter := li, initialized := false })).2.initialized = true →
      (find_calls (calls.take k)
        (⟨text, ins, bnd⟩, { last_iter := li, initialized := false })).2.last_iter ≤
        text.length) := by
  obtain ⟨k0, k1, k2, k3⟩ := find_calls_keep_bounds text (calls.take k)
    (⟨text, ins, bnd⟩, { last_iter := li, initialized := false }) rfl h1 h2 (by simp)
  refine ⟨k0, Nat.zero_le _, ?_, ?_, k3⟩
  · simp only [selection_start, selection_end]
    exact le_trans (min_le_left _ _) (le_max_left _ _)
  · simp only [selection_end]
    exact max_le k1 k2

/-- C6 at work: two calls into the sequence forward "alpha", forward "beta", backward "",
forward "zzz" on "alpha beta alpha", the selection is [6,10) and the resume point is 10. -/
theorem find_calls_offsets_in_bounds_witness :
    (3 ≤ "alpha beta alpha".toList.length ∧ 3 ≤ "alpha beta alpha".toList.length) ∧
    ((find_calls
        ([(true, some "alpha".toList), (true, some "beta".toList), (false, some []),
          (true, some "zzz".toList)].take 2)
        (⟨"alpha beta alpha".toList, 3, 3⟩, { last_iter := 99, initialized := false })).1.text =
        "alpha beta alpha".toList ∧
      0 ≤ selection_start (find_calls
        ([(true, some "alpha".toList), (true, some "beta".toList), (false, some []),
          (true, some "zzz".toList)].take 2)
        (⟨"alpha beta alpha".toList, 3, 3⟩, { last_iter := 99, initialized := false })).1 ∧
      selection_start (find_calls
        ([(true, some "alpha".toList), (true, some "beta".toList), (false, some []),
          (true, some "zzz".toList)].take 2)
        (⟨"alpha beta alpha".toList, 3, 3⟩, { last_iter := 99, initialized := false })).1 ≤
        selection_end (find_calls
        ([(true, some "alpha".toList), (true, some "beta".toList), (false, some []),
          (true, some "zzz".toList)].take 2)
        (⟨"alpha beta alpha".toList, 3, 3⟩, { last_iter := 99, initialized := false })).1 ∧
      selection_end (find_calls
        ([(true, some "alpha".toList), (true, some "beta".toList), (false, some []),
          (true, some "zzz".toList)].take 2)
        (⟨"alpha beta alpha".toList, 3, 3⟩, { last_iter := 99, initialized := false })).1 ≤
        "alpha beta alpha".toList.length ∧
      ((find_calls
        ([(true, some "alpha".toList), (true, some "beta".toList), (false, some []),
          (true, some "zzz".toList)].take 2)
        (⟨"alpha beta alpha".toList, 3, 3⟩,
          { last_iter := 99, initialized := false })).2.initialized = true →
        (find_calls
        ([(true, some "alpha".toList), (true, some "beta".toList), (false, some []),
          (true, some "zzz".toList)].take 2)
        (⟨"alpha beta alpha".toList, 3, 3⟩,
          { last_iter := 99, initialized := false })).2.last_iter ≤
          "alpha beta alpha".toList.length)) ∧
    find_calls
        ([(true, some "alpha".toList), (true, some "beta".toList), (false, some []),
          (true, some "zzz".toList)].take 2)
        (⟨"alpha beta alpha".toList, 3, 3⟩, { last_iter := 99, initialized := false }) =
      (⟨"alpha beta alpha".toList, 6, 10⟩, { last_iter := 10, initialized := true }) :=
  ⟨⟨by decide, by decide⟩,
    find_calls_offsets_in_bounds "alpha beta alpha".toList 3 3 99
      [(true, some "alpha".toList), (true, some "beta".toList), (false, some []),
        (true, some "zzz".toList)] 2 (by decide) (by decide),
    by decide⟩

/-- C10: the first `find_next` call of a fresh session with direction backward and a
non-empty query searches from the document start exactly as a forward call would (it acts as
a backward call of an initialised session whose resume point is 0); nothing lies before
offset 0, so it finds no match whatever the content, leaves text and selection as they
were, sets `initialized` and moves the resume point to the document end. -/
theorem find_next_first_backward_call (text : List Char) (ins bnd li : Nat) (q : List Char)
    (hq : q ≠ []) :
    search_origin { last_iter := li, initialized := false } = 0 ∧
    gtk_text_iter_backward_search text 0 q = none ∧
    find_next ⟨text, ins, bnd⟩ { last_iter := li, initialized := false } (some q) false =
      find_next ⟨text, ins, bnd⟩ { last_iter := 0, initialized := true } (some q) false ∧
    find_next ⟨text, ins, bnd⟩ { last_iter := li, initialized := false } (some q) false =
      (⟨text, ins, bnd⟩, { last_iter := text.length, initialized := true }) := by
  have hlen : 0 < q.length := List.length_pos.mpr hq
  have hnone : gtk_text_iter_backward_search text 0 q = none := by
    unfold gtk_text_iter_backward_search
    rw [if_neg (by omega)]
  have hfresh : find_next ⟨text, ins, bnd⟩ { last_iter := li, initialized := false }
      (some q) false =
      find_next ⟨text, ins, bnd⟩ { last_iter := 0, initialized := true } (some q) false := by
    rw [find_next_fresh]
    simp [hq]
  refine ⟨rfl, hnone, hfresh, ?_⟩
  rw [find_next_of_search_none _ _ q hq false (by simpa [search_origin] using hnone)]
  rfl

/-- C10 at work: "alpha" occurs twice in "alpha beta alpha", yet the first backward call of
a fresh session selects nothing and only moves the resume point to 16. -/
theorem find_next_first_backward_call_witness :
    "alpha".toList ≠ [] ∧
    occurs_at "alpha beta alpha".toList "alpha".toList 11 ∧
    (search_origin { last_iter := 7, initialized := false } = 0 ∧
      gtk_text_iter_backward_search "alpha beta alpha".toList 0 "alpha".toList = none ∧
      find_next ⟨"alpha beta alpha".toList, 2, 4⟩ { last_iter := 7, initialized := false }
          (some "alpha".toList) false =
        find_next ⟨"alpha beta alpha".toList, 2, 4⟩ { last_iter := 0, initialized := true }
          (some "alpha".toList) false ∧
      find_next ⟨"alpha beta alpha".toList, 2, 4⟩ { last_iter := 7, initialized := false }
          (some "alpha".toList) false =
        (⟨"alpha beta alpha".toList, 2, 4⟩,
          { last_iter := "alpha beta alpha".toList.length, initialized := true })) :=
  ⟨by decide, by decide,
    find_next_first_backward_call "alpha beta alpha".toList 2 4 7 "alpha".toList (by decide)⟩

/-! ## Status line -/

theorem to_gint_of_lt {n : Nat} (h : n < 2 ^ 31) : to_gint n = (n : Int) := by
  unfold to_gint
  have h1 : n % 2 ^ 32 = n := Nat.mod_eq_of_lt (by omega)
  rw [h1, if_pos h]

theorem line_col_scan_spec (t : Char → Bool) :
    ∀ (text : List Char) (o l c : Nat), o ≤ text.length →
      (line_col_scan t text o (l, c)).1 = l + (text.take o).countP t ∧
      (((∀ i x, i < o → text[i]? = some x → t x = false) ∧
          (line_col_scan t text o (l, c)).2 = c + o) ∨
        (∃ ls, 0 < ls ∧ ls ≤ o ∧ (∃ x, text[ls - 1]? = some x ∧ t x = true) ∧
          (∀ i x, ls ≤ i → i < o → text[i]? = some x → t x = false) ∧
          (line_col_scan t text o (l, c)).2 = o - ls)) := by
  intro text
  induction text with
  | nil =>
    intro o l c ho
    have : o = 0 := by simpa using ho
    subst this
    refine ⟨by simp [line_col_scan], Or.inl ⟨?_, by simp [line_col_scan]⟩⟩
    intro i x hi; omega
  | cons a as ih =>
    intro o l c ho
    cases o with
    | zero =>
      refine ⟨by simp [line_col_scan], Or.inl ⟨?_, by simp [line_col_scan]⟩⟩
      intro i x hi; omega
    | succ n =>
      have hn : n ≤ as.length := by simpa using ho
      by_cases ha : t a = true
      · obtain ⟨hL, hC⟩ := ih n (l + 1) 0 hn
        simp only [line_col_scan, ha, if_true]
        refine ⟨?_, Or.inr ?_⟩
        · rw [hL, List.take_succ_cons, List.countP_cons_of_pos _ _ ha]; omega
        · rcases hC with ⟨hno, hcol⟩ | ⟨ls, hls0, hlsn, ⟨x, hx, htx⟩, hno, hcol⟩
          · refine ⟨1, by omega, by omega, ⟨a, by simp, ha⟩, ?_, by rw [hcol]; omega⟩
            intro i x h1 h2 hx
            cases i with
            | zero => omega
            | succ j =>
              rw [List.getElem?_cons_succ] at hx
              exact hno j x (by omega) hx
          · refine ⟨ls + 1, by omega, by omega, ⟨x, ?_, htx⟩, ?_, by rw [hcol]; omega⟩
            · have e : ls + 1 - 1 = (ls - 1) + 1 := by omega
              rw [e, List.getElem?_cons_succ]
              exact hx
            · intro i y h1 h2 hy
              cases i with
              | zero => omega
              | succ j =>
                rw [List.getElem?_cons_succ] at hy
                exact hno j y (by omega) (by omega) hy
      · have ha2 : t a = false := Bool.eq_false_iff.mpr ha
        obtain ⟨hL, hC⟩ := ih n l (c + 1) hn
        simp only [line_col_scan, ha2, Bool.false_eq_true, if_false]
        refine ⟨?_, ?_⟩
        · rw [hL, List.take_succ_cons, List.countP_cons_of_neg _ _ ha]
        · rcases hC with ⟨hno, hcol⟩ | ⟨ls, hls0, hlsn, ⟨x, hx, htx⟩, hno, hcol⟩
          · refine Or.inl ⟨?_, by rw [hcol]; omega⟩
            intro i x h1 hx
            cases i with
            | zero =>
              simp only [List.getElem?_cons_zero, Option.some.injEq] at hx
              subst hx; exact ha2
            | succ j =>
              rw [List.getElem?_cons_succ] at hx
              exact hno j x (by omega) hx
          · refine Or.inr ⟨ls + 1, by omega, by omega, ⟨x, ?_, htx⟩, ?_, by rw [hcol]; omega⟩
            · have e : ls + 1 - 1 = (ls - 1) + 1 := by omega
              rw [e, List.getElem?_cons_succ]
              exact hx
            · intro i y h1 h2 hy
              cases i with
              | zero => omega
              | succ j =>
                rw [List.getElem?_cons_succ] at hy
                exact hno j y (by omega) (by omega) hy

theorem gint_add_one_of_lt {n : Nat} (h : n < 2147483647) :
    gint_add (to_gint n) 1 = ((n + 1 : Nat) : Int) := by
  rw [to_gint_of_lt (by omega)]
  unfold gint_add
  have e : ((n : Int) + 1) % 2 ^ 32 = ((n + 1 : Nat) : Int) := by
    rw [Int.emod_eq_of_lt (by omega) (by omega)]
    push_cast
    rfl
  rw [e, Int.toNat_ofNat, to_gint_of_lt (by omega)]

theorem line_col_scan_cons_succ (t : Char → Bool) (a : Char) (cs : List Char) (n l c : Nat) :
    line_col_scan t (a :: cs) (n + 1) (l, c) =
      if t a then line_col_scan t cs n (l + 1, 0) else line_col_scan t cs n (l, c + 1) :=
  rfl

theorem line_col_scan_replicate_plain (t : Char → Bool) (a : Char) (ha : t a = false) :
    ∀ (n l c : Nat), line_col_scan t (List.replicate n a) n (l, c) = (l, c + n) := by
  intro n
  induction n with
  | zero => intro l c; rfl
  | succ n ih =>
    intro l c
    rw [List.replicate_succ, line_col_scan_cons_succ, ha, if_neg (by decide), ih l (c + 1)]
    congr 1
    omega

theorem line_col_scan_replicate_terminator (t : Char → Bool) (a : Char) (ha : t a = true) :
    ∀ (n l c : Nat),
      line_col_scan t (List.replicate n a) n (l, c) = (l + n, if n = 0 then c else 0) := by
  intro n
  induction n with
  | zero => intro l c; rfl
  | succ n ih =>
    intro l c
    rw [List.replicate_succ, line_col_scan_cons_succ, ha, if_pos rfl, ih (l + 1) 0]
    have e : l + 1 + n = l + (n + 1) := by omega
    rw [e, if_neg (Nat.succ_ne_zero n)]
    congr 1
    split <;> rfl

theorem update_status_replicate_plain (t : Char → Bool) (a : Char) (ha : t a = false)
    (n : Nat) (cf : Option GFile) (ww : Bool) (sr : Option (List Char)) :
    update_status t
        { textview := { buffer := ⟨List.replicate n a, n, n⟩ }, current_file := cf,
          word_wrap := ww, last_search := sr } =
      (gint_add (to_gint 0) 1, gint_add (to_gint n) 1) := by
  simp only [update_status, gtk_text_view_get_buffer, gtk_text_buffer_get_iter_at_insert,
    gtk_text_iter_get_line, gtk_text_iter_get_line_offset]
  rw [line_col_scan_replicate_plain t a ha n 0 0, Nat.zero_add]

theorem update_status_replicate_terminator (t : Char → Bool) (a : Char) (ha : t a = true)
    (n : Nat) (cf : Option GFile) (ww : Bool) (sr : Option (List Char)) :
    update_status t
        { textview := { buffer := ⟨List.replicate n a, n, n⟩ }, current_file := cf,
          word_wrap := ww, last_search := sr } =
      (gint_add (to_gint n) 1, gint_add (to_gint (if n = 0 then 0 else 0)) 1) := by
  simp only [update_status, gtk_text_view_get_buffer, gtk_text_buffer_get_iter_at_insert,
    gtk_text_iter_get_line, gtk_text_iter_get_line_offset]
  rw [line_col_scan_replicate_terminator t a ha n 0 0, Nat.zero_add]

/-- C9 as stated fails on the code, whose line and column are 32-bit `gint` values.  With
the newline as terminator: at the end of a line of 2^31 - 1 letters "a" the 0-based line
offset is 2^31 - 1 and the `+ 1` yields column -2147483648; after 2^31 - 1 newlines the
0-based line number is 2^31 - 1 and the `+ 1` yields line -2147483648.  Neither is 1 or
more. -/
theorem update_status_gint_overflow :
    update_status (fun c => c == '\n')
        { textview := { buffer := ⟨List.replicate 2147483647 'a', 2147483647, 2147483647⟩ },
          current_file := none, word_wrap := true, last_search := none } =
      (1, -2147483648) ∧
    update_status (fun c => c == '\n')
        { textview := { buffer := ⟨List.replicate 2147483647 '\n', 2147483647, 2147483647⟩ },
          current_file := none, word_wrap := true, last_search := none } =
      (-2147483648, 1) ∧
    ¬ ((1 : Int) ≤ -2147483648) := by
  have h1 : to_gint 2147483647 = 2147483647 := by decide
  have h2 : gint_add 2147483647 1 = -2147483648 := by decide
  have h3 : gint_add (to_gint 0) 1 = 1 := by decide
  have h4 : (if 2147483647 = 0 then 0 else 0 : Nat) = 0 := by decide
  refine ⟨?_, ?_, by decide⟩
  · rw [update_status_replicate_plain (fun c => c == '\n') 'a' (by decide) 2147483647
      none true none, h3, h1, h2]
  · rw [update_status_replicate_terminator (fun c => c == '\n') '\n' (by decide) 2147483647
      none true none, h4, h3, h1, h2]

/-- C9, amended: for an insertion offset o within the content whose 0-based line number
and 0-based line offset are both below 2^31 - 1 (so that neither `+ 1` leaves the range of
a `gint`), `update_status` reports a 1-based position: line = 1 + number of line
terminators strictly before o, and column = 1 + (o - ls), where ls is the offset at which
o's line starts (0 if no terminator precedes o, otherwise the offset just after the last
terminator before o); so line ≥ 1 and column ≥ 1, and the empty document at offset 0
reports line 1, column 1. -/
theorem update_status_one_based (is_terminator : Char → Bool) (d : AppData)
    (h : d.textview.buffer.insert ≤ d.textview.buffer.text.length)
    (hline : gtk_text_iter_get_line is_terminator d.textview.buffer.text
        d.textview.buffer.insert < 2147483647)
    (hcol : gtk_text_iter_get_line_offset is_terminator d.textview.buffer.text
        d.textview.buffer.insert < 2147483647) :
    (update_status is_terminator d).1 =
      ((1 + (d.textview.buffer.text.take d.textview.buffer.insert).countP is_terminator : Nat) :
        Int) ∧
    (∃ ls, ls ≤ d.textview.buffer.insert ∧
      (ls = 0 ∨ ∃ x, d.textview.buffer.text[ls - 1]? = some x ∧ is_terminator x = true) ∧
      (∀ i x, ls ≤ i → i < d.textview.buffer.insert →
        d.textview.buffer.text[i]? = some x → is_terminator x = false) ∧
      (update_status is_terminator d).2 = ((1 + (d.textview.buffer.insert - ls) : Nat) : Int)) ∧
    1 ≤ (update_status is_terminator d).1 ∧ 1 ≤ (update_status is_terminator d).2 ∧
    (∀ cf ww sr, update_status is_terminator
      { textview := { buffer := ⟨[], 0, 0⟩ }, current_file := cf, word_wrap := ww,
        last_search := sr } = (1, 1)) := by
  obtain ⟨hL, hC⟩ := line_col_scan_spec is_terminator d.textview.buffer.text
    d.textview.buffer.insert 0 0 h
  have e1 : (update_status is_terminator d).1 =
      ((gtk_text_iter_get_line is_terminator d.textview.buffer.text
        d.textview.buffer.insert + 1 : Nat) : Int) := gint_add_one_of_lt hline
  have e2 : (update_status is_terminator d).2 =
      ((gtk_text_iter_get_line_offset is_terminator d.textview.buffer.text
        d.textview.buffer.insert + 1 : Nat) : Int) := gint_add_one_of_lt hcol
  rw [e1, e2]
  simp only [gtk_text_iter_get_line, gtk_text_iter_get_line_offset]
  refine ⟨by rw [hL]; congr 1; omega, ?_, by omega, by omega, ?_⟩
  · rcases hC with ⟨hno, hcol2⟩ | ⟨ls, hls0, hlsn, hx, hno, hcol2⟩
    · exact ⟨0, by omega, Or.inl rfl, fun i x _ h2 hx => hno i x h2 hx,
        by rw [hcol2]; congr 1; omega⟩
    · exact ⟨ls, hlsn, Or.inr hx, hno, by rw [hcol2]; congr 1; omega⟩
  · intro cf ww sr
    have h0 : gint_add (to_gint 0) 1 = 1 := by decide
    show (gint_add (to_gint 0) 1, gint_add (to_gint 0) 1) = ((1 : Int), (1 : Int))
    rw [h0]

/-- C9 amended, at work: with the newline as terminator, offset 4 of "ab\ncd\n" is line 2,
column 2, and the empty document is line 1, column 1. -/
theorem update_status_one_based_witness :
    (4 ≤ "ab\ncd\n".toList.length ∧
      gtk_text_iter_get_line (fun c => c == '\n') "ab\ncd\n".toList 4 < 2147483647 ∧
      gtk_text_iter_get_line_offset (fun c => c == '\n') "ab\ncd\n".toList 4 < 2147483647) ∧
    update_status (fun c => c == '\n')
      { textview := { buffer := ⟨"ab\ncd\n".toList, 4, 4⟩ }, current_file := none,
        word_wrap := true, last_search := none } = (2, 2) ∧
    update_status (fun c => c == '\n')
      { textview := { buffer := ⟨[], 0, 0⟩ }, current_file := none,
        word_wrap := true, last_search := none } = (1, 1) := by
  have h := update_status_one_based (fun c => c == '\n')
    { textview := { buffer := ⟨"ab\ncd\n".toList, 4, 4⟩ }, current_file := none,
      word_wrap := true, last_search := none } (by decide) (by decide) (by decide)
  exact ⟨⟨by decide, by decide, by decide⟩, by decide, h.2.2.2.2 none true none⟩

/-! ## Files -/

theorem utf8_len_cons (c : Char) (cs : List Char) :
    utf8_len (c :: cs) = c.utf8Size + utf8_len cs := by
  simp [utf8_len]

theorem take_bytes_cons (n : Nat) (c : Char) (cs : List Char) :
    take_bytes n (c :: cs) = if c.utf8Size ≤ n then c :: take_bytes (n - c.utf8Size) cs else [] :=
  rfl

theorem take_bytes_utf8_len : ∀ cs : List Char, take_bytes (utf8_len cs) cs = cs := by
  intro cs
  induction cs with
  | nil => rfl
  | cons c cs ih =>
    rw [utf8_len_cons]
    simp only [take_bytes]
    rw [if_pos (by omega)]
    have e : c.utf8Size + utf8_len cs - c.utf8Size = utf8_len cs := by omega
    rw [e, ih]

theorem take_bytes_zero (cs : List Char) : take_bytes 0 cs = [] := by
  cases cs with
  | nil => rfl
  | cons c cs =>
    have := Char.utf8Size_pos c
    simp only [take_bytes]
    rw [if_neg (by omega)]

theorem utf8_len_eq_zero {cs : List Char} (h : utf8_len cs = 0) : cs = [] := by
  cases cs with
  | nil => rfl
  | cons c cs =>
    rw [utf8_len_cons] at h
    have := Char.utf8Size_pos c
    omega

theorem c_string_of_no_nul {cs : List Char} (h : ∀ c ∈ cs, c ≠ NUL) : c_string cs = cs := by
  unfold c_string
  rw [List.takeWhile_eq_self_iff]
  intro c hc
  simpa using h c hc

theorem set_text_of_valid (buf : GtkTextBuffer) (content : List Char)
    (hnul : ∀ c ∈ content, c ≠ NUL) (hlen : utf8_len content < 2 ^ 31) :
    (gtk_text_buffer_set_text buf content (to_gint (utf8_len content))).text = content := by
  rw [to_gint_of_lt hlen]
  unfold gtk_text_buffer_set_text
  have hneg : ¬ ((utf8_len content : Int) < 0) := by omega
  simp only [hneg, if_false, Int.toNat_ofNat]
  by_cases h0 : 0 < utf8_len content
  · have hv : g_utf8_validate content (utf8_len content) = true := by
      unfold g_utf8_validate
      rw [take_bytes_utf8_len]
      simp only [decide_True, Bool.true_and, List.all_eq_true]
      intro c hc
      simpa using hnul c hc
    have h0i : (0 : Int) < (utf8_len content : Int) := by omega
    rw [if_pos ⟨h0i, hv⟩, take_bytes_utf8_len]
  · have : content = [] := utf8_len_eq_zero (by omega)
    subst this
    simp [utf8_len]

theorem get_text_whole (buf : GtkTextBuffer) :
    gtk_text_buffer_get_text buf (gtk_text_buffer_get_start_iter buf)
      (gtk_text_buffer_get_end_iter buf) = buf.text := by
  simp [gtk_text_buffer_get_text, gtk_text_buffer_get_start_iter, gtk_text_buffer_get_end_iter]

theorem save_to_file_eq (d : AppData) (fs : FileSystem) (file : GFile) :
    save_to_file d fs file =
      match g_file_replace_contents fs file d.textview.buffer.text
          (strlen d.textview.buffer.text) with
      | .ok fs1 => (d, fs1)
      | .error _ => (d, fs) := by
  unfold save_to_file
  simp only [gtk_text_view_get_buffer, get_text_whole]

/-- What `save_to_file` writes: the buffer text up to its first NUL. -/
theorem save_to_file_written (d : AppData) (fs : FileSystem) (file : GFile)
    (hw : fs.writable file = true) :
    (save_to_file d fs file).1 = d ∧
    (save_to_file d fs file).2.contents file = some (c_string d.textview.buffer.text) := by
  rw [save_to_file_eq]
  simp only [g_file_replace_contents, hw, if_true, strlen]
  have hpre : take_bytes (utf8_len (c_string d.textview.buffer.text)) d.textview.buffer.text
      = c_string d.textview.buffer.text := by
    have key : ∀ (l : List Char),
        take_bytes (utf8_len (c_string l)) l = c_string l := by
      intro l
      induction l with
      | nil => rfl
      | cons c cs ih =>
        by_cases hc : c = NUL
        · subst hc
          have : c_string (NUL :: cs) = [] := by simp [c_string]
          rw [this]
          exact take_bytes_zero _
        · have : c_string (c :: cs) = c :: c_string cs := by
            simp [c_string, List.takeWhile_cons, hc]
          rw [this, utf8_len_cons]
          simp only [take_bytes]
          rw [if_pos (by omega)]
          have e : c.utf8Size + utf8_len (c_string cs) - c.utf8Size = utf8_len (c_string cs) := by
            omega
          rw [e, ih]
    exact key _
  simp [hpre]

theorem open_finish_loaded (d : AppData) (fs : FileSystem) (file : GFile) (content : List Char)
    (hload : fs.contents file = some content) :
    open_finish d fs (some file) =
      { d with
        textview := { buffer := gtk_text_buffer_set_text d.textview.buffer content
                        (to_gint (utf8_len content)) },
        current_file := some file } := by
  simp [open_finish, g_file_load_contents, hload, gtk_text_view_get_buffer]

theorem utf8_len_replicate_a (n : Nat) : utf8_len (List.replicate n 'a') = n := by
  induction n with
  | zero => rfl
  | succ n ih =>
    rw [List.replicate_succ, utf8_len_cons, ih]
    have : Char.utf8Size 'a' = 1 := by decide
    omega

/-- Loading valid content leaves both marks at the end of the inserted text. -/
theorem set_text_buffer_of_valid (buf : GtkTextBuffer) (content : List Char)
    (hnul : ∀ c ∈ content, c ≠ NUL) (hlen : utf8_len content < 2 ^ 31) :
    gtk_text_buffer_set_text buf content (to_gint (utf8_len content)) =
      ⟨content, content.length, content.length⟩ := by
  rw [to_gint_of_lt hlen]
  unfold gtk_text_buffer_set_text
  have hneg : ¬ ((utf8_len content : Int) < 0) := by omega
  simp only [hneg, if_false, Int.toNat_ofNat]
  by_cases h0 : 0 < utf8_len content
  · have hv : g_utf8_validate content (utf8_len content) = true := by
      unfold g_utf8_validate
      rw [take_bytes_utf8_len]
      simp only [decide_True, Bool.true_and, List.all_eq_true]
      intro c hc
      simpa using hnul c hc
    have h0i : (0 : Int) < (utf8_len content : Int) := by omega
    rw [if_pos ⟨h0i, hv⟩, take_bytes_utf8_len]
  · have : content = [] := utf8_len_eq_zero (by omega)
    subst this
    simp [utf8_len]

theorem open_finish_buffer_of_valid (d : AppData) (fs : FileSystem) (file : GFile)
    (content : List Char) (hload : fs.contents file = some content)
    (hnul : ∀ c ∈ content, c ≠ NUL) (hlen : utf8_len content < 2 ^ 31) :
    (open_finish d fs (some file)).textview.buffer =
      ⟨content, content.length, content.length⟩ := by
  rw [open_finish_loaded d fs file content hload]
  exact set_text_buffer_of_valid d.textview.buffer content hnul hlen

/-- A file holding one line of 2^31 - 1 letters "a" loads into the buffer with the cursor
at its end, line offset 2^31 - 1. -/
theorem open_finish_long_line (d : AppData) :
    (open_finish d
        { contents := fun _ => some (List.replicate 2147483647 'a'), writable := fun _ => true }
        (some "in.txt")).textview.buffer =
      ⟨List.replicate 2147483647 'a', 2147483647, 2147483647⟩ := by
  have hnul : ∀ c ∈ List.replicate 2147483647 'a', c ≠ NUL := by
    intro c hc
    rw [List.eq_of_mem_replicate hc]
    decide
  have hlen : utf8_len (List.replicate 2147483647 'a') < 2 ^ 31 := by
    rw [utf8_len_replicate_a]
    decide
  have h := open_finish_buffer_of_valid d
    { contents := fun _ => some (List.replicate 2147483647 'a'), writable := fun _ => true }
    "in.txt" (List.replicate 2147483647 'a') rfl hnul hlen
  rw [List.length_replicate] at h
  exact h

/-- C7 as stated fails on the code: writing "hi" to a file that cannot be written makes
`g_file_replace_contents` fail with an I/O error, yet `save_to_file` hands back exactly the
application data and file system it was given, and its caller is left with the same
application data as after a write that succeeded. -/
theorem save_to_file_failure_not_surfaced :
    g_file_replace_contents
        { contents := fun _ => none, writable := fun f => f != "ro.txt" } "ro.txt"
        "hi".toList (strlen "hi".toList) =
      Except.error GError.G_IO_ERROR_PERMISSION_DENIED ∧
    (save_to_file
        { textview := { buffer := ⟨"hi".toList, 2, 2⟩ }, current_file := some "ro.txt",
          word_wrap := true, last_search := none }
        { contents := fun _ => none, writable := fun f => f != "ro.txt" } "ro.txt").1 =
      { textview := { buffer := ⟨"hi".toList, 2, 2⟩ }, current_file := some "ro.txt",
        word_wrap := true, last_search := none } ∧
    (save_to_file
        { textview := { buffer := ⟨"hi".toList, 2, 2⟩ }, current_file := some "ro.txt",
          word_wrap := true, last_search := none }
        { contents := fun _ => none, writable := fun f => f != "ro.txt" } "ro.txt").2.contents
        "ro.txt" = none ∧
    (save_to_file
        { textview := { buffer := ⟨"hi".toList, 2, 2⟩ }, current_file := some "ro.txt",
          word_wrap := true, last_search := none }
        { contents := fun _ => none, writable := fun _ => true } "ro.txt").2.contents
        "ro.txt" = some "hi".toList ∧
    (save_to_file
        { textview := { buffer := ⟨"hi".toList, 2, 2⟩ }, current_file := some "ro.txt",
          word_wrap := true, last_search := none }
        { contents := fun _ => none, writable := fun f => f != "ro.txt" } "ro.txt").1 =
      (save_to_file
        { textview := { buffer := ⟨"hi".toList, 2, 2⟩ }, current_file := some "ro.txt",
          word_wrap := true, last_search := none }
        { contents := fun _ => none, writable := fun _ => true } "ro.txt").1 := by
  refine ⟨rfl, ?_, ?_, ?_, ?_⟩ <;> decide

/-- C7, amended: when the write performed by `save_to_file` fails, `save_to_file` returns
the application data (buffer text and marks included) and the file system exactly as it
received them and reports nothing; `save_as_finish` in that case only records the chosen
file as the current file.  Whether or not the write fails, the application data, and with
it the buffer content, is returned unmodified. -/
theorem save_to_file_failure_is_silent (d : AppData) (fs : FileSystem) (file : GFile)
    (e : GError)
    (hfail : g_file_replace_contents fs file d.textview.buffer.text
        (strlen d.textview.buffer.text) = Except.error e) :
    save_to_file d fs file = (d, fs) ∧
    save_as_finish d fs (some file) = ({ d with current_file := some file }, fs) ∧
    (∀ fs1 file1, (save_to_file d fs1 file1).1 = d) := by
  refine ⟨?_, ?_, ?_⟩
  · rw [save_to_file_eq, hfail]
  · simp only [save_as_finish]
    rw [save_to_file_eq]
    simp only [hfail]
  · intro fs1 file1
    rw [save_to_file_eq]
    split <;> rfl

/-- C7 amended, at work: saving the buffer "hi" to the unwritable "ro.txt". -/
theorem save_to_file_failure_is_silent_witness :
    g_file_replace_contents
        { contents := fun _ => none, writable := fun f => f != "ro.txt" } "ro.txt"
        "hi".toList (strlen "hi".toList) =
      Except.error GError.G_IO_ERROR_PERMISSION_DENIED ∧
    (save_to_file
        { textview := { buffer := ⟨"hi".toList, 2, 2⟩ }, current_file := none,
          word_wrap := true, last_search := none }
        { contents := fun _ => none, writable := fun f => f != "ro.txt" } "ro.txt").1 =
      { textview := { buffer := ⟨"hi".toList, 2, 2⟩ }, current_file := none,
        word_wrap := true, last_search := none } ∧
    (save_as_finish
        { textview := { buffer := ⟨"hi".toList, 2, 2⟩ }, current_file := none,
          word_wrap := true, last_search := none }
        { contents := fun _ => none, writable := fun f => f != "ro.txt" } (some "ro.txt")).1 =
      { textview := { buffer := ⟨"hi".toList, 2, 2⟩ }, current_file := some "ro.txt",
        word_wrap := true, last_search := none } := by
  have h := save_to_file_failure_is_silent
    { textview := { buffer := ⟨"hi".toList, 2, 2⟩ }, current_file := none,
      word_wrap := true, last_search := none }
    { contents := fun _ => none, writable := fun f => f != "ro.txt" } "ro.txt"
    GError.G_IO_ERROR_PERMISSION_DENIED rfl
  exact ⟨rfl, by rw [h.1], by rw [h.2.1]⟩

/-- C8 as stated fails on the code.  A file holding "a", NUL, "b" is refused by the buffer,
so the save that follows writes an empty file.  A file of 2^31 letters "a" has its length
passed as a negative `int`, so nothing is inserted into the buffer and the save that
follows writes an empty file as well. -/
theorem open_then_save_loses_content :
    (save_to_file
        (open_finish
          { textview := { buffer := ⟨[], 0, 0⟩ }, current_file := none, word_wrap := true,
            last_search := none }
          { contents := fun f => if f = "in.txt" then some ['a', NUL, 'b'] else none,
            writable := fun _ => true } (some "in.txt"))
        { contents := fun f => if f = "in.txt" then some ['a', NUL, 'b'] else none,
          writable := fun _ => true } "out.txt").2.contents "out.txt" = some [] ∧
    (save_to_file
        (open_finish
          { textview := { buffer := ⟨[], 0, 0⟩ }, current_file := none, word_wrap := true,
            last_search := none }
          { contents := fun f => if f = "in.txt" then some ['a', NUL, 'b'] else none,
            writable := fun _ => true } (some "in.txt"))
        { contents := fun f => if f = "in.txt" then some ['a', NUL, 'b'] else none,
          writable := fun _ => true } "out.txt").2.contents "out.txt" ≠
      some ['a', NUL, 'b'] ∧
    (save_to_file
        (open_finish
          { textview := { buffer := ⟨[], 0, 0⟩ }, current_file := none, word_wrap := true,
            last_search := none }
          { contents := fun _ => some (List.replicate 2147483648 'a'),
            writable := fun _ => true } (some "in.txt"))
        { contents := fun _ => some (List.replicate 2147483648 'a'),
          writable := fun _ => true } "out.txt").2.contents "out.txt" = some [] ∧
    (some [] : Option (List Char)) ≠ some (List.replicate 2147483648 'a') := by
  refine ⟨by decide, by decide, ?_, ?_⟩
  swap
  · intro h
    have h2 : ([] : List Char) = List.replicate 2147483648 'a' := Option.some.inj h
    have h3 := congrArg List.length h2
    rw [List.length_replicate, List.length_nil] at h3
    exact absurd h3 (by decide)
  have hopen : (open_finish
      { textview := { buffer := ⟨[], 0, 0⟩ }, current_file := none, word_wrap := true,
        last_search := none }
      { contents := fun _ => some (List.replicate 2147483648 'a'),
        writable := fun _ => true } (some "in.txt")).textview.buffer.text = [] := by
    rw [open_finish_loaded _ _ _ (List.replicate 2147483648 'a') rfl]
    rw [utf8_len_replicate_a]
    have hnul : ∀ c ∈ List.replicate 2147483648 'a', c ≠ NUL := by
      intro c hc
      rw [List.eq_of_mem_replicate hc]
      decide
    have hstr : strlen (List.replicate 2147483648 'a') = 2147483648 := by
      unfold strlen
      rw [c_string_of_no_nul hnul, utf8_len_replicate_a]
    have hg : to_gint 2147483648 = -2147483648 := by decide
    simp only [gtk_text_buffer_set_text, hstr, hg]
    have h1 : ((-2147483648 : Int) < 0) := by decide
    have h2 : ¬ ((0 : Int) < -2147483648) := by decide
    simp only [h1, if_true, h2, false_and, if_false]
  have hsave := (save_to_file_written
    (open_finish
      { textview := { buffer := ⟨[], 0, 0⟩ }, current_file := none, word_wrap := true,
        last_search := none }
      { contents := fun _ => some (List.replicate 2147483648 'a'),
        writable := fun _ => true } (some "in.txt"))
    { contents := fun _ => some (List.replicate 2147483648 'a'),
      writable := fun _ => true } "out.txt" rfl).2
  rw [hsave, hopen]
  rfl

/-- C8, amended: for every file content that has no NUL character and fewer than 2^31
bytes, a successful load by `open_finish` puts exactly that content into the buffer; a
successful `save_to_file` right after it, with no edit in between, writes exactly that
content; and loading the saved file yields the same buffer content as the first load. -/
theorem open_then_save_round_trip (d : AppData) (fs : FileSystem) (file file2 : GFile)
    (content : List Char)
    (hload : fs.contents file = some content)
    (hnul : ∀ c ∈ content, c ≠ NUL)
    (hlen : utf8_len content < 2 ^ 31)
    (hw : fs.writable file2 = true) :
    (open_finish d fs (some file)).textview.buffer.text = content ∧
    (save_to_file (open_finish d fs (some file)) fs file2).2.contents file2 = some content ∧
    (open_finish (save_to_file (open_finish d fs (some file)) fs file2).1
        (save_to_file (open_finish d fs (some file)) fs file2).2
        (some file2)).textview.buffer.text =
      (open_finish d fs (some file)).textview.buffer.text := by
  have h1 : (open_finish d fs (some file)).textview.buffer.text = content := by
    rw [open_finish_loaded d fs file content hload]
    exact set_text_of_valid d.textview.buffer content hnul hlen
  obtain ⟨hs1, hs2⟩ := save_to_file_written (open_finish d fs (some file)) fs file2 hw
  rw [h1, c_string_of_no_nul hnul] at hs2
  refine ⟨h1, hs2, ?_⟩
  rw [open_finish_loaded _ _ file2 content hs2, h1]
  exact set_text_of_valid
    (save_to_file (open_finish d fs (some file)) fs file2).1.textview.buffer content hnul hlen

/-- C8 amended, at work: "héllo\nwörld" comes back unchanged from load, save, load. -/
theorem open_then_save_round_trip_witness :
    ((if "in.txt" = "in.txt" then some "héllo\nwörld".toList else none) =
        some "héllo\nwörld".toList ∧
      (∀ c ∈ "héllo\nwörld".toList, c ≠ NUL) ∧
      utf8_len "héllo\nwörld".toList < 2 ^ 31 ∧ true = true) ∧
    (save_to_file
        (open_finish
          { textview := { buffer := ⟨"old".toList, 1, 2⟩ }, current_file := none,
            word_wrap := true, last_search := none }
          { contents := fun f => if f = "in.txt" then some "héllo\nwörld".toList else none,
            writable := fun _ => true } (some "in.txt"))
        { contents := fun f => if f = "in.txt" then some "héllo\nwörld".toList else none,
          writable := fun _ => true } "out.txt").2.contents "out.txt" =
      some "héllo\nwörld".toList := by
  have h := open_then_save_round_trip
    { textview := { buffer := ⟨"old".toList, 1, 2⟩ }, current_file := none,
      word_wrap := true, last_search := none }
    { contents := fun f => if f = "in.txt" then some "héllo\nwörld".toList else none,
      writable := fun _ => true } "in.txt" "out.txt" "héllo\nwörld".toList
    (by decide) (by decide) (by decide) rfl
  exact ⟨⟨by decide, by decide, by decide, rfl⟩, h.2.1⟩

end LibreNote
